import Mathlib

/-!
Verification development for the `zero_thickness_repair` mesh-repair module.

The Python source (`zero_thickness_repair.py`) is shallowly embedded here:

* a file is a list of lines, each line a `List Char` (a line normally keeps
  its trailing newline character, mirroring Python's `readline`);
* node identifiers are integers (`ℤ`, Python `int`), coordinates are lists
  of rationals (`List ℚ`): the idealisation of Python floats by exact
  rationals;
* the node table is `ℤ → Option (List ℚ)` (Python `dict`), a failed lookup
  (Python `KeyError`) and all other raised exceptions are modelled by
  `Except Err`;
* arithmetic that must evaluate inside the kernel is written with
  `mkRat` / numerator / denominator integer operations (`subQ`, `absQ`);
  lemmas `subQ_eq`, `absQ_eq` and `near_iff` identify these with the
  ordinary `ℚ` operations used in theorem statements;
* Python's `int(s)` / `float(s)` strip surrounding whitespace themselves,
  so the `rstrip()` the source applies before splitting a record line is
  absorbed into `pyInt?` / `pyFloat?` (which trim their argument); the
  field count of `split(',')` is unaffected by `rstrip()` because
  `rstrip` never removes a comma;
* the paired while-loops of the source (an outer loop over the file and an
  inner loop that consumes a section until its `*` terminator and seeks
  back) are merged into single structural recursions with a Boolean
  `mode` flag: processing the terminator line with `mode = false` is
  exactly the source's seek-back followed by the outer loop re-reading
  that same line.
-/

/-- Errors raised by the source: `malformedSection` is the
`end of .inp file reached ...` exception of the three section scanners
(the spec's `MalformedSectionError`), `badParse` covers `ValueError` /
`IndexError` from `int()` / `float()` / tuple indexing / format,
`missingNode` is a `KeyError` on the node table (the spec's
`ReferenceError`), and `invalidPolicy` is the `ValueError` raised for a bad
`element_types` argument (the spec's `InvalidPolicyError`). -/
inductive Err where
  | malformedSection
  | badParse
  | missingNode
  | invalidPolicy
deriving DecidableEq, Repr

/-- A line of the text file, as a list of characters (bytes for ASCII input),
normally including its trailing newline. -/
abbrev Line := List Char

/-- The node table: Python's `node_coords_dict`. -/
abbrev Table := ℤ → Option (List ℚ)

/-- The empty node table (`dict()`). -/
def emptyT : Table := fun _ => none

/-- Assignment `t[n] = c` on the node table. -/
def updateT (t : Table) (n : ℤ) (c : List ℚ) : Table :=
  fun m => if m = n then some c else t m

/-- Dictionary lookup `t[n]`; a missing key raises (Python `KeyError`). -/
def lookupE (t : Table) (n : ℤ) : Except Err (List ℚ) :=
  match t n with
  | some c => .ok c
  | none => .error .missingNode

/-- `c[0], c[1], c[2]`: the first three coordinate values; fewer than three
raises (Python `IndexError`). -/
def firstThree : List ℚ → Except Err (ℚ × ℚ × ℚ)
  | x :: y :: z :: _ => .ok (x, y, z)
  | _ => .error .badParse

/-- `startsWithL l p`: Python `l.startswith(p)`. -/
def startsWithL (l p : Line) : Bool := List.isPrefixOf p l

/-- Python `l.split(',')`: never empty, no separators kept. -/
def splitComma : Line → List Line
  | [] => [[]]
  | c :: cs =>
    let r := splitComma cs
    if c = ',' then [] :: r
    else (c :: r.headD []) :: r.tail

/-- Strip leading and trailing whitespace, as Python's `int()` / `float()`
do to their argument (this also absorbs the source's `rstrip()`). -/
def trimL (l : Line) : Line :=
  ((l.dropWhile Char.isWhitespace).reverse.dropWhile Char.isWhitespace).reverse

/-- Decimal digit characters to the natural number they denote. -/
def digitsToNat (cs : List Char) : ℕ := cs.foldl (fun a c => a * 10 + (c.toNat - 48)) 0

/-- Python `int(s)`: optional sign, then decimal digits, whitespace
stripped; anything else raises `ValueError` (here: `none`). -/
def pyInt? (l : Line) : Option ℤ :=
  match trimL l with
  | [] => none
  | '-' :: ds => if ds ≠ [] ∧ ds.all Char.isDigit then some (-(digitsToNat ds : ℤ)) else none
  | '+' :: ds => if ds ≠ [] ∧ ds.all Char.isDigit then some ((digitsToNat ds : ℤ)) else none
  | ds => if ds.all Char.isDigit then some ((digitsToNat ds : ℤ)) else none

/-- Exponent tail of a float literal: applies `e±k` to the mantissa
`num / den`; empty or non-digit exponent raises. -/
def pyExpApply (pos : Bool) (ds : List Char) (num den : ℕ) : Option ℚ :=
  if ds ≠ [] ∧ ds.all Char.isDigit then
    some (if pos then mkRat ((num * 10 ^ digitsToNat ds : ℕ) : ℤ) den
          else mkRat (num : ℤ) (den * 10 ^ digitsToNat ds))
  else none

/-- Optional exponent part after the mantissa `num / den`. -/
def pyExp (cs : List Char) (num den : ℕ) : Option ℚ :=
  match cs with
  | [] => some (mkRat (num : ℤ) den)
  | c :: rest =>
    if c = 'e' ∨ c = 'E' then
      match rest with
      | '+' :: ds => pyExpApply true ds num den
      | '-' :: ds => pyExpApply false ds num den
      | ds => pyExpApply true ds num den
    else none

/-- Unsigned part of Python `float(s)`: `digits[.digits][e±digits]`, with at
least one digit in the mantissa. -/
def pyFloatCore (cs : List Char) : Option ℚ :=
  let ip := cs.takeWhile Char.isDigit
  let r1 := cs.dropWhile Char.isDigit
  match r1 with
  | '.' :: r2 =>
    let fp := r2.takeWhile Char.isDigit
    let r3 := r2.dropWhile Char.isDigit
    if ip.isEmpty && fp.isEmpty then none
    else pyExp r3 (digitsToNat ip * 10 ^ fp.length + digitsToNat fp) (10 ^ fp.length)
  | _ => if ip.isEmpty then none else pyExp r1 (digitsToNat ip) 1

/-- Python `float(s)` as an exact rational (whitespace stripped, optional
sign; `inf` / `nan` are outside the rational model and fail). -/
def pyFloat? (l : Line) : Option ℚ :=
  match trimL l with
  | [] => none
  | '-' :: cs => (pyFloatCore cs).map (fun q => -q)
  | '+' :: cs => pyFloatCore cs
  | cs => pyFloatCore cs

/-- The first comma-separated field of a line: `line.split(',')[0]`. -/
def idField (l : Line) : Line := (splitComma l).headD []

/-- One record of the node section, `id, x, y, z[, ...]`
(`read_node_coordinates`, lines 56-58 of the source): leading field parsed
as `int`, all remaining fields parsed as `float` and retained. -/
def parseNodeLine (l : Line) : Option (ℤ × List ℚ) :=
  match pyInt? (idField l) with
  | none => none
  | some n =>
    match ((splitComma l).tail).mapM pyFloat? with
    | none => none
    | some cs => some (n, cs)

/-- One record of an element section (`identify_relevant_nodes`, lines
83-85): the element's own id (first field) is discarded unparsed, the
remaining fields are the node ids. -/
def parseElemLine (l : Line) : Option (List ℤ) :=
  ((splitComma l).tail).mapM pyInt?

/-- The node-section header test of the source: `line.startswith('*Node\n')`. -/
def nodeHeader : Line := "*Node\n".toList

/-- Any line starting with `*` terminates the current section. -/
def starMark : Line := "*".toList

/-- Second pass of `parse_old_inp_file` (lines 221-229) merged with
`read_node_coordinates` (lines 46-60). `mode = true` means the cursor is
inside a node section with `cur` the (fresh) dictionary of that section;
`mode = false` means `cur` is the dictionary returned by the last completed
node section — each completed section *replaces* the previous result.
End of input inside a section raises; a `*` line ends the section and is
then re-examined by the outer loop. -/
def scanNodes (mode : Bool) (cur : Table) : List Line → Except Err Table
  | [] => if mode then .error .malformedSection else .ok cur
  | l :: ls =>
    if mode then
      if startsWithL l starMark then
        if startsWithL l nodeHeader then scanNodes true emptyT ls
        else scanNodes false cur ls
      else
        match parseNodeLine l with
        | some (n, c) => scanNodes true (updateT cur n c) ls
        | none => .error .badParse
    else
      if startsWithL l nodeHeader then scanNodes true emptyT ls
      else scanNodes false cur ls

/-- First pass of `parse_old_inp_file` (lines 212-219) merged with
`identify_relevant_nodes` (lines 73-86): every section whose header starts
with `key` contributes one node-id list per record, accumulated in file
order (`relevant_node_groups.extend(...)`). -/
def scanElems (key : Line) (mode : Bool) (acc : List (List ℤ)) : List Line → Except Err (List (List ℤ))
  | [] => if mode then .error .malformedSection else .ok acc
  | l :: ls =>
    if mode then
      if startsWithL l starMark then
        if startsWithL l key then scanElems key true acc ls
        else scanElems key false acc ls
      else
        match parseElemLine l with
        | some g => scanElems key true (acc ++ [g]) ls
        | none => .error .badParse
    else
      if startsWithL l key then scanElems key true acc ls
      else scanElems key false acc ls

/-- Executable absolute value on `ℚ` (kernel-reducible; equals `|q|`,
see `absQ_eq`). -/
def absQ (q : ℚ) : ℚ := if q < 0 then -q else q

/-- Executable subtraction on `ℚ` via numerators and denominators
(kernel-reducible; equals `a - b`, see `subQ_eq`). -/
def subQ (a b : ℚ) : ℚ := mkRat (a.num * b.den - b.num * a.den) (a.den * b.den)

/-- The coincidence test of `adjust_nodes` on one axis:
`abs(coord1 - coord2) < tolerance` (strict). -/
def near (tol a b : ℚ) : Bool := decide (absQ (subQ a b) < tol)

/-- Inner loop of `adjust_nodes` (lines 112-123): compare `node_1` (with
its coordinates `c1` as read at the start of the `i` iteration) against
each later node of the group; on a per-axis coincidence the later node's
table entry is overwritten with the *current* table value of `node_1`
(line 120 re-reads the dictionary), and the later node is recorded. -/
def innerPairs (tol : ℚ) (n1 : ℤ) (c1 : List ℚ) :
    List ℤ → Table → List ℤ → Except Err (Table × List ℤ)
  | [], t, adj => .ok (t, adj)
  | n2 :: rest, t, adj =>
    match lookupE t n2 with
    | .error e => .error e
    | .ok c2 =>
      match firstThree c1 with
      | .error e => .error e
      | .ok (x1, y1, z1) =>
        match firstThree c2 with
        | .error e => .error e
        | .ok (x2, y2, z2) =>
          if near tol x1 x2 && near tol y1 y2 && near tol z1 z2 then
            match lookupE t n1 with
            | .error e => .error e
            | .ok c1cur => innerPairs tol n1 c1 rest (updateT t n2 c1cur) (adj ++ [n2])
          else innerPairs tol n1 c1 rest t adj

/-- Outer loop of `adjust_nodes` over one group (lines 110-123):
`for i, node_1_number in enumerate(node_group)` with the inner loop over
`node_group[i+1:]`. -/
def groupPass (tol : ℚ) : List ℤ → Table → List ℤ → Except Err (Table × List ℤ)
  | [], t, adj => .ok (t, adj)
  | n1 :: rest, t, adj =>
    match lookupE t n1 with
    | .error e => .error e
    | .ok c1 =>
      match innerPairs tol n1 c1 rest t adj with
      | .error e => .error e
      | .ok (t', adj') => groupPass tol rest t' adj'

/-- Loop of `adjust_nodes` over all groups (line 109). -/
def groupsPass (tol : ℚ) : List (List ℤ) → Table → List ℤ → Except Err (Table × List ℤ)
  | [], t, adj => .ok (t, adj)
  | g :: gs, t, adj =>
    match groupPass tol g t adj with
    | .error e => .error e
    | .ok (t', adj') => groupsPass tol gs t' adj'

/-- Lines 125-127 of the source: after all groups are processed, the
adjusted dictionary pairs each recorded node with its value in the *final*
table (`adjusted_coords = [node_coords_dict[n] for n in adjusted_nodes]`). -/
def buildAdjDict (tf : Table) : List ℤ → Except Err (List (ℤ × List ℚ))
  | [] => .ok []
  | n :: ns =>
    match tf n with
    | some c =>
      match buildAdjDict tf ns with
      | .ok d => .ok ((n, c) :: d)
      | .error e => .error e
    | none => .error .missingNode

/-- `adjust_nodes` (lines 89-129): run all groups, deduplicate the recorded
nodes (`list(set(adjusted_nodes))`), and build the adjusted dictionary from
the final table. Returns the mutated table together with the dictionary. -/
def adjust_nodes (t : Table) (gs : List (List ℤ)) (tol : ℚ) :
    Except Err (Table × List (ℤ × List ℚ)) :=
  match groupsPass tol gs t [] with
  | .error e => .error e
  | .ok (tf, adj) =>
    match buildAdjDict tf adj.dedup with
    | .ok d => .ok (tf, d)
    | .error e => .error e

/-- Lookup in the adjusted dictionary (`node_number in adjusted_node_coords`
/ `adjusted_node_coords[node_number]`). -/
def dictLookup (d : List (ℤ × List ℚ)) (n : ℤ) : Option (List ℚ) :=
  match d.find? (fun p => p.1 = n) with
  | some p => some p.2
  | none => none

/-- Digits of a natural number, most significant first (`fuel` bounds the
digit count; `natToChars` supplies a sufficient bound). -/
def natToCharsGo (p : ℕ) (n : ℕ) (acc : List Char) : List Char :=
  match p with
  | 0 => acc
  | f + 1 =>
    if n < 10 then Char.ofNat (48 + n) :: acc
    else natToCharsGo f (n / 10) (Char.ofNat (48 + n % 10) :: acc)

/-- Decimal rendering of a natural number. -/
def natToChars (n : ℕ) : List Char := natToCharsGo (n + 1) n []

/-- Python `str` of an `int`. -/
def intToChars (n : ℤ) : List Char :=
  match n with
  | .ofNat m => natToChars m
  | .negSucc m => '-' :: natToChars (m + 1)

/-- Divide out the factor `p` from the third argument as often as possible,
counting (fuel-bounded; `stripPow` supplies a sufficient bound). -/
def stripPowGo (p : ℕ) : ℕ → ℕ → ℕ → ℕ × ℕ
  | 0, n, k => (k, n)
  | f + 1, n, k => if n % p = 0 ∧ 0 < n ∧ 2 ≤ p then stripPowGo p f (n / p) (k + 1) else (k, n)

/-- `(multiplicity of p in n, n with all factors p removed)`. -/
def stripPow (p n : ℕ) : ℕ × ℕ := stripPowGo p n n 0

/-- Rendering of a rational coordinate value, standing in for Python's
`str(float)`: exact decimal notation whenever the denominator divides a
power of ten (every value parsed from a decimal literal does), fractional
notation otherwise. The concrete digits differ from CPython's float `repr`,
but like it the rendering contains no comma and parses back (`pyFloat?`)
to the same value, which is what the claims depend on. -/
def rq (q : ℚ) : List Char :=
  let sign : List Char := if q.num < 0 then ['-'] else []
  let na := q.num.natAbs
  let d := q.den
  let a := (stripPow 2 d).1
  let d2 := (stripPow 2 d).2
  let b := (stripPow 5 d2).1
  let d25 := (stripPow 5 d2).2
  if d25 = 1 then
    let k := max a b
    let mant := na * 10 ^ k / d
    if k = 0 then sign ++ natToChars mant
    else
      sign ++ natToChars (mant / 10 ^ k) ++
        '.' :: (List.replicate (k - (natToChars (mant % 10 ^ k)).length) '0' ++
          natToChars (mant % 10 ^ k))
  else sign ++ natToChars na ++ '/' :: natToChars d

/-- Line 188 of the source:
`'{0},{1},{2},{3}\n'.format(node_number, *node_coords)` — exactly the id
and the first three coordinate values are emitted, any further fields of
`node_coords` are ignored; fewer than three raises `IndexError`. -/
def formatCoord3 (n : ℤ) : List ℚ → Except Err Line
  | c0 :: c1 :: c2 :: _ =>
    .ok (intToChars n ++ ',' :: rq c0 ++ ',' :: rq c1 ++ ',' :: rq c2 ++ ['\n'])
  | _ => .error .badParse

/-- `write_new_inp_file` (lines 146-158) merged with
`write_new_node_section` (lines 175-192). Outside the node section
(`mode = false`) every line is copied verbatim; a `*Node\n` line is copied
and switches to node mode. In node mode a `*` line is re-processed as an
outside line (the source seeks back and lets the outer loop re-read it);
any other line has its leading field parsed as the node id and is either
copied verbatim (id not adjusted) or replaced by a freshly formatted
three-coordinate line. End of input in node mode raises. -/
def writeLines (d : List (ℤ × List ℚ)) (mode : Bool) : List Line → Except Err (List Line)
  | [] => if mode then .error .malformedSection else .ok []
  | l :: ls =>
    if mode then
      if startsWithL l starMark then
        match writeLines d (startsWithL l nodeHeader) ls with
        | .ok out => .ok (l :: out)
        | .error e => .error e
      else
        match pyInt? (idField l) with
        | none => .error .badParse
        | some n =>
          match dictLookup d n with
          | none =>
            match writeLines d true ls with
            | .ok out => .ok (l :: out)
            | .error e => .error e
          | some c =>
            match formatCoord3 n c with
            | .error e => .error e
            | .ok s =>
              match writeLines d true ls with
              | .ok out => .ok (s :: out)
              | .error e => .error e
    else
      match writeLines d (startsWithL l nodeHeader) ls with
      | .ok out => .ok (l :: out)
      | .error e => .error e

/-- Keyword selection of `coord_snap` (lines 263-269). -/
def elemKey? (ets : Line) : Option Line :=
  if ets = "cohesives".toList then some ("*Element, type=COH3D".toList)
  else if ets = "all".toList then some ("*Element, type=".toList)
  else none

/-- `coord_snap` (lines 234-291): select the element keyword (or raise
`ValueError`), first pass for the element groups, second pass for the node
table, cluster, then write the destination. The Python function body ends
in a bare `return`, so its value is `None` (modelled by `Unit`); the
written destination file is returned alongside it as the observable
effect. A failure before the write never produces a destination. -/
def coord_snap (file : List Line) (ets : Line) (tol : ℚ) : Except Err (Unit × List Line) :=
  match elemKey? ets with
  | none => .error .invalidPolicy
  | some key =>
    match scanElems key false [] file with
    | .error e => .error e
    | .ok gs =>
      match scanNodes false emptyT file with
      | .error e => .error e
      | .ok t =>
        match adjust_nodes t gs tol with
        | .error e => .error e
        | .ok (_, d) =>
          match writeLines d false file with
          | .error e => .error e
          | .ok out => .ok ((), out)

/-- Observer: the element groups the pipeline would use. -/
def groupsOf (file : List Line) (ets : Line) : Except Err (List (List ℤ)) :=
  match elemKey? ets with
  | none => .error .invalidPolicy
  | some key => scanElems key false [] file

/-- Observer: the adjusted (changed-node) dictionary the pipeline builds. -/
def snapDict (file : List Line) (ets : Line) (tol : ℚ) : Except Err (List (ℤ × List ℚ)) :=
  match elemKey? ets with
  | none => .error .invalidPolicy
  | some key =>
    match scanElems key false [] file with
    | .error e => .error e
    | .ok gs =>
      match scanNodes false emptyT file with
      | .error e => .error e
      | .ok t =>
        match adjust_nodes t gs tol with
        | .error e => .error e
        | .ok (_, d) => .ok d

/-- Observer: the raw recorded snap-target list (before deduplication). -/
def snapTargets (t : Table) (gs : List (List ℤ)) (tol : ℚ) : Except Err (List ℤ) :=
  match groupsPass tol gs t [] with
  | .error e => .error e
  | .ok (_, adj) => .ok adj

/-- Observer: final table entry of node `n` after `adjust_nodes`. -/
def adjTableAt (t : Table) (gs : List (List ℤ)) (tol : ℚ) (n : ℤ) : Option (List ℚ) :=
  match adjust_nodes t gs tol with
  | .ok (tf, _) => tf n
  | .error _ => none

/-- Observer: the adjusted dictionary of `adjust_nodes`. -/
def adjDictOf (t : Table) (gs : List (List ℤ)) (tol : ℚ) : List (ℤ × List ℚ) :=
  match adjust_nodes t gs tol with
  | .ok (_, d) => d
  | .error _ => []

/-- Observer: node `n` of the table produced by the second parsing pass. -/
def scanTableAt (file : List Line) (n : ℤ) : Option (List ℚ) :=
  match scanNodes false emptyT file with
  | .ok t => t n
  | .error _ => none

/-- Observer: the value `coord_snap` returns (Python: always `None` on
success). -/
def retOf (file : List Line) (ets : Line) (tol : ℚ) : Option Unit :=
  match coord_snap file ets tol with
  | .ok (u, _) => some u
  | .error _ => none

/-- Observer: the changed-node count, `len(adjusted_coords_dict)`. -/
def changedCountOf (file : List Line) (ets : Line) (tol : ℚ) : Option ℕ :=
  match snapDict file ets tol with
  | .ok d => some d.length
  | .error _ => none

/-- Position flags for the writer's traversal: entry `i` is `true` iff the
writer processes line `i` in node-section rewriting mode (so `false` for
every line outside node sections and for headers and terminators). -/
def nodeFlags (mode : Bool) : List Line → List Bool
  | [] => []
  | l :: ls =>
    if mode then
      if startsWithL l starMark then false :: nodeFlags (startsWithL l nodeHeader) ls
      else true :: nodeFlags true ls
    else false :: nodeFlags (startsWithL l nodeHeader) ls

/-- Per-line relation between an input line (with its node-mode flag) and
the corresponding output line of the writer. -/
def lineRel (d : List (ℤ × List ℚ)) (l : Line) (flag : Bool) (o : Line) : Prop :=
  if flag then
    ∃ n, pyInt? (idField l) = some n ∧
      ((dictLookup d n = none ∧ o = l) ∨
       ∃ c, dictLookup d n = some c ∧ formatCoord3 n c = .ok o)
  else o = l

deriving instance DecidableEq for Except

/-- Node table of the spec's C2 scenario:
`{1:(0,0,0), 2:(0.0005,0,0), 3:(5,5,5)}`. -/
def tC2 : Table := fun n =>
  if n = 1 then some [0, 0, 0]
  else if n = 2 then some [mkRat 1 2000, 0, 0]
  else if n = 3 then some [5, 5, 5] else none

/-- Node table with nodes `1 ↦ (0,0,0)`, `2 ↦ (0.5,0,0)`, `3 ↦ (0.9,0,0)`. -/
def tC1 : Table := fun n =>
  if n = 1 then some [0, 0, 0]
  else if n = 2 then some [mkRat 1 2, 0, 0]
  else if n = 3 then some [mkRat 9 10, 0, 0] else none

/-- Node table with two exactly coincident nodes. -/
def tC5 : Table := fun n =>
  if n = 1 then some [0, 0, 0] else if n = 2 then some [0, 0, 0] else none

/-- Input file realising the spec's C2 scenario through the whole pipeline. -/
def fileW : List Line :=
  ["*Node\n".toList, "1,0,0,0\n".toList, "2,0.0005,0,0\n".toList, "3,5,5,5\n".toList,
   "*Element, type=COH3D6\n".toList, "1,1,2,3\n".toList, "*End\n".toList]

/-- The destination file the pipeline writes for `fileW`. -/
def outW : List Line :=
  ["*Node\n".toList, "1,0,0,0\n".toList, "2,0,0,0\n".toList, "3,5,5,5\n".toList,
   "*Element, type=COH3D6\n".toList, "1,1,2,3\n".toList, "*End\n".toList]

/-- Input file on which the repair is not idempotent: group `[1,2]` snaps
node 2 to node 1, then group `[3,1]` drags node 1 onto node 3. -/
def fileC4 : List Line :=
  ["*Node\n".toList, "1,0,0,0\n".toList, "2,0.5,0,0\n".toList, "3,0.9,0,0\n".toList,
   "*Element, type=COH3D6\n".toList, "1,1,2\n".toList,
   "*Element, type=COH3D6\n".toList, "2,3,1\n".toList, "*End\n".toList]

/-- First-run output for `fileC4` (tolerance 1). -/
def outC4a : List Line :=
  ["*Node\n".toList, "1,0.9,0,0\n".toList, "2,0,0,0\n".toList, "3,0.9,0,0\n".toList,
   "*Element, type=COH3D6\n".toList, "1,1,2\n".toList,
   "*Element, type=COH3D6\n".toList, "2,3,1\n".toList, "*End\n".toList]

/-- Second-run output for `fileC4`: node 2 moves again. -/
def outC4b : List Line :=
  ["*Node\n".toList, "1,0.9,0,0\n".toList, "2,0.9,0,0\n".toList, "3,0.9,0,0\n".toList,
   "*Element, type=COH3D6\n".toList, "1,1,2\n".toList,
   "*Element, type=COH3D6\n".toList, "2,3,1\n".toList, "*End\n".toList]

/-- A file with two node sections defining different nodes. -/
def fileC8 : List Line :=
  ["*Node\n".toList, "1,1,1,1\n".toList, "*End\n".toList,
   "*Node\n".toList, "2,2,2,2\n".toList, "*stop\n".toList]

/-- A minimal file with one node section, one node and no element section. -/
def fileC10 : List Line := ["*Node\n".toList, "1,0,0,0\n".toList, "*End\n".toList]

theorem absQ_eq (q : ℚ) : absQ q = |q| := by
  unfold absQ
  rcases lt_or_le q 0 with h | h
  · rw [if_pos h, abs_of_neg h]
  · rw [if_neg (not_lt.mpr h), abs_of_nonneg h]

theorem subQ_eq (a b : ℚ) : subQ a b = a - b := by
  unfold subQ
  have ha : ((a.den : ℤ)) ≠ 0 := by exact_mod_cast a.den_nz
  have hb : ((b.den : ℤ)) ≠ 0 := by exact_mod_cast b.den_nz
  rw [Rat.mkRat_eq_divInt]
  conv_rhs => rw [← Rat.num_divInt_den a, ← Rat.num_divInt_den b]
  rw [Rat.divInt_sub_divInt _ _ ha hb]
  push_cast
  rfl

theorem near_iff (tol a b : ℚ) : near tol a b = true ↔ |a - b| < tol := by
  unfold near
  rw [decide_eq_true_iff, absQ_eq, subQ_eq]

theorem updateT_self (t : Table) (n : ℤ) (c : List ℚ) : updateT t n c n = some c := by
  simp [updateT]

theorem updateT_other (t : Table) (n m : ℤ) (c : List ℚ) (h : m ≠ n) :
    updateT t n c m = t m := by
  simp [updateT, h]

theorem startsWith_of_nodeHeader (l : Line) (h : startsWithL l nodeHeader = true) :
    startsWithL l starMark = true := by
  unfold startsWithL at h ⊢
  rw [ List.isPrefixOf_iff_prefix] at h ⊢
  exact List.IsPrefix.trans (by decide) h

theorem near3_iff (tol a0 a1 a2 b0 b1 b2 : ℚ) :
    (near tol a0 b0 && near tol a1 b1 && near tol a2 b2) = true ↔
      (|a0 - b0| < tol ∧ |a1 - b1| < tol ∧ |a2 - b2| < tol) := by
  rw [Bool.and_eq_true, Bool.and_eq_true, near_iff, near_iff, near_iff]
  tauto

/-- Claim C1 (amended): for a group consisting of one pair of distinct
nodes, the later node is snapped iff the absolute difference of each of the
two nodes' first 3 coordinate values (their current table values at the
comparison) is strictly less than the tolerance; the snap overwrites the
later node's entry with the earlier node's entry and records it as changed,
and a pair differing by the tolerance or more on any axis (in particular by
exactly the tolerance) is not snapped and nothing changes. Equality of the
pair in the final output is only guaranteed in the absence of later
overwrites (see the counterexample). -/
theorem c1_amended (t : Table) (tol : ℚ) (a b : ℤ) (_hab : a ≠ b)
    (a0 a1 a2 : ℚ) (ar : List ℚ) (b0 b1 b2 : ℚ) (br : List ℚ)
    (hta : t a = some (a0 :: a1 :: a2 :: ar)) (htb : t b = some (b0 :: b1 :: b2 :: br)) :
    adjust_nodes t [[a, b]] tol =
      if |a0 - b0| < tol ∧ |a1 - b1| < tol ∧ |a2 - b2| < tol
      then .ok (updateT t b (a0 :: a1 :: a2 :: ar), [(b, a0 :: a1 :: a2 :: ar)])
      else .ok (t, []) := by
  by_cases hc : |a0 - b0| < tol ∧ |a1 - b1| < tol ∧ |a2 - b2| < tol
  · have hg : (near tol a0 b0 && near tol a1 b1 && near tol a2 b2) = true :=
      (near3_iff tol a0 a1 a2 b0 b1 b2).mpr hc
    rw [if_pos hc]
    simp [adjust_nodes, groupsPass, groupPass, innerPairs, buildAdjDict, lookupE,
      firstThree, hta, htb, hg, updateT_self]
  · have hg : (near tol a0 b0 && near tol a1 b1 && near tol a2 b2) = false :=
      Bool.eq_false_iff.mpr (fun hT => hc ((near3_iff tol a0 a1 a2 b0 b1 b2).mp hT))
    rw [if_neg hc]
    simp [adjust_nodes, groupsPass, groupPass, innerPairs, buildAdjDict, lookupE,
      firstThree, hta, htb, hg]

/-- Claim C3: transitive propagation across groups. If A and B are
coincident in group 1 (so B is snapped to A's coordinate), and in group 2
the comparison of B — whose table value is now A's coordinate — with C
passes the coincidence test (A is never directly compared with C), then
C's final coordinate equals A's coordinate, and differs from B's original
coordinate whenever the two differ: the chain converges to the coordinate
of the first node in traversal order. -/
theorem c3_propagation (t : Table) (tol : ℚ) (a b c : ℤ)
    (hab : a ≠ b) (hac : a ≠ c) (hbc : b ≠ c)
    (a0 a1 a2 : ℚ) (ar : List ℚ) (b0 b1 b2 : ℚ) (br : List ℚ) (c0 c1 c2 : ℚ) (cr : List ℚ)
    (hta : t a = some (a0 :: a1 :: a2 :: ar))
    (htb : t b = some (b0 :: b1 :: b2 :: br))
    (htc : t c = some (c0 :: c1 :: c2 :: cr))
    (h1 : |a0 - b0| < tol ∧ |a1 - b1| < tol ∧ |a2 - b2| < tol)
    (h2 : |a0 - c0| < tol ∧ |a1 - c1| < tol ∧ |a2 - c2| < tol) :
    ∃ tf d, adjust_nodes t [[a, b], [b, c]] tol = .ok (tf, d) ∧
      tf a = some (a0 :: a1 :: a2 :: ar) ∧
      tf c = some (a0 :: a1 :: a2 :: ar) ∧
      (b0 :: b1 :: b2 :: br ≠ a0 :: a1 :: a2 :: ar →
        tf c ≠ some (b0 :: b1 :: b2 :: br)) := by
  have hba : b ≠ a := fun h => hab h.symm
  have hca : c ≠ a := fun h => hac h.symm
  have hcb : c ≠ b := fun h => hbc h.symm
  have hg1 : (near tol a0 b0 && near tol a1 b1 && near tol a2 b2) = true :=
    (near3_iff tol a0 a1 a2 b0 b1 b2).mpr h1
  have hg2 : (near tol a0 c0 && near tol a1 c1 && near tol a2 c2) = true :=
    (near3_iff tol a0 a1 a2 c0 c1 c2).mpr h2
  refine ⟨updateT (updateT t b (a0 :: a1 :: a2 :: ar)) c (a0 :: a1 :: a2 :: ar),
    [(b, a0 :: a1 :: a2 :: ar), (c, a0 :: a1 :: a2 :: ar)], ?_, ?_, ?_, ?_⟩
  · simp [adjust_nodes, groupsPass, groupPass, innerPairs, buildAdjDict, lookupE,
      firstThree, hta, htb, htc, hg1, hg2, updateT_self,
      updateT_other _ _ _ _ hca, updateT_other _ _ _ _ hcb, updateT_other _ _ _ _ hba,
      updateT_other _ _ _ _ hbc, List.dedup_cons_of_not_mem, hbc]
  · rw [updateT_other _ _ _ _ hac, updateT_other _ _ _ _ hab, hta]
  · rw [updateT_self]
  · intro hne
    rw [updateT_self]
    intro hsome
    exact hne (Option.some.inj hsome).symm

/-- Witness for `c1_amended`: nodes 1 and 2 of `tC1` are coincident under
tolerance 1, so node 2 is snapped to node 1's coordinate. -/
theorem c1_amended_witness :
    adjust_nodes tC1 [[1, 2]] 1 = .ok (updateT tC1 2 [0, 0, 0], [(2, [0, 0, 0])]) := by
  have hcond : |(0:ℚ) - mkRat 1 2| < 1 ∧ |(0:ℚ) - 0| < 1 ∧ |(0:ℚ) - 0| < 1 := by
    refine ⟨?_, ?_, ?_⟩ <;> rw [← near_iff] <;> decide
  have h := c1_amended tC1 1 1 2 (by decide) 0 0 0 [] (mkRat 1 2) 0 0 [] (by decide) (by decide)
  rw [if_pos hcond] at h
  exact h

/-- Claim C2: for the node table `{1:(0,0,0), 2:(0.0005,0,0), 3:(5,5,5)}`
with the single group `[1,2,3]` and tolerance `0.001`, the clusterer
changes node 2's coordinate to `(0,0,0)`, leaves node 3 unchanged, and the
changed-node count is exactly 1. -/
theorem c2_scenario :
    adjDictOf tC2 [[1, 2, 3]] (mkRat 1 1000) = [(2, [0, 0, 0])] ∧
    adjTableAt tC2 [[1, 2, 3]] (mkRat 1 1000) 2 = some [0, 0, 0] ∧
    adjTableAt tC2 [[1, 2, 3]] (mkRat 1 1000) 3 = some [5, 5, 5] ∧
    tC2 3 = some [5, 5, 5] ∧
    (adjDictOf tC2 [[1, 2, 3]] (mkRat 1 1000)).length = 1 := by decide

/-- Counterexample to claim C1 as stated: in `tC1` with groups
`[[1,2],[3,1]]` and tolerance 1, nodes 1 and 2 share a group and each of
their first 3 coordinate values differs by strictly less than the
tolerance, and node 2 is indeed snapped — yet their coordinates in the
output are *not* equal, because the later group `[3,1]` overwrites node 1
with node 3's coordinate. -/
theorem c1_counterexample :
    (([1, 2] : List ℤ) ∈ [[1, 2], [3, 1]] ∧
     tC1 1 = some [0, 0, 0] ∧ tC1 2 = some [mkRat 1 2, 0, 0] ∧
     dictLookup (adjDictOf tC1 [[1, 2], [3, 1]] 1) 2 = some [0, 0, 0] ∧
     adjTableAt tC1 [[1, 2], [3, 1]] 1 1 ≠ adjTableAt tC1 [[1, 2], [3, 1]] 1 2) ∧
    |(0:ℚ) - mkRat 1 2| < 1 ∧ |(0:ℚ) - 0| < 1 ∧ |(0:ℚ) - 0| < 1 := by
  refine ⟨by decide, ?_, ?_, ?_⟩ <;> rw [← near_iff] <;> decide

/-- Witness for `c3_propagation` on `tC1` with groups `[[1,2],[2,3]]`. -/
theorem c3_propagation_witness :
    ∃ tf d, adjust_nodes tC1 [[1, 2], [2, 3]] 1 = .ok (tf, d) ∧
      tf 1 = some [0, 0, 0] ∧ tf 3 = some [0, 0, 0] ∧
      (([mkRat 1 2, 0, 0] : List ℚ) ≠ [0, 0, 0] → tf 3 ≠ some [mkRat 1 2, 0, 0]) := by
  have h1 : |(0:ℚ) - mkRat 1 2| < 1 ∧ |(0:ℚ) - 0| < 1 ∧ |(0:ℚ) - 0| < 1 := by
    refine ⟨?_, ?_, ?_⟩ <;> rw [← near_iff] <;> decide
  have h2 : |(0:ℚ) - mkRat 9 10| < 1 ∧ |(0:ℚ) - 0| < 1 ∧ |(0:ℚ) - 0| < 1 := by
    refine ⟨?_, ?_, ?_⟩ <;> rw [← near_iff] <;> decide
  exact c3_propagation tC1 1 1 2 3 (by decide) (by decide) (by decide)
    0 0 0 [] (mkRat 1 2) 0 0 [] (mkRat 9 10) 0 0 [] (by decide) (by decide) (by decide) h1 h2

/-- Counterexample to claim C5 as stated: with two exactly coincident
nodes, node 2 is in the changed-node set even though its final coordinate
equals its as-read coordinate — the set is the set of snap *targets*, not
"exactly the subset of node identifiers whose final coordinate differs
from their as-read coordinate". -/
theorem c5_counterexample :
    dictLookup (adjDictOf tC5 [[1, 2]] (mkRat 1 1000)) 2 = some [0, 0, 0] ∧
    adjTableAt tC5 [[1, 2]] (mkRat 1 1000) 2 = tC5 2 ∧ tC5 2 = some [0, 0, 0] := by decide

theorem buildAdjDict_spec (tf : Table) : ∀ (l : List ℤ) (d : List (ℤ × List ℚ)),
    buildAdjDict tf l = .ok d →
      d.map Prod.fst = l ∧ ∀ n co, (n, co) ∈ d → tf n = some co := by
  intro l
  induction l with
  | nil =>
    intro d hd
    simp only [buildAdjDict] at hd
    cases hd
    simp
  | cons n ns ih =>
    intro d hd
    simp only [buildAdjDict] at hd
    cases htf : tf n with
    | none => rw [htf] at hd; cases hd
    | some c =>
      rw [htf] at hd
      cases hb : buildAdjDict tf ns with
      | error e => rw [hb] at hd; cases hd
      | ok d' =>
        rw [hb] at hd
        cases hd
        obtain ⟨hmap, hval⟩ := ih d' hb
        refine ⟨by simp [hmap], ?_⟩
        intro m co hm
        rcases List.mem_cons.mp hm with h | h
        · cases h; exact htf
        · exact hval m co h

/-- Claim C5 (amended): the changed-node set is exactly the
(deduplicated) set of node identifiers that were ever the target of a snap
— which may include nodes whose final coordinate equals their as-read
coordinate — and the coordinate recorded for each such node is read from
the node table's state after all groups have been processed, never from an
intermediate state. -/
theorem c5_amended (t : Table) (gs : List (List ℤ)) (tol : ℚ) (tf : Table)
    (d : List (ℤ × List ℚ)) (h : adjust_nodes t gs tol = .ok (tf, d)) :
    ∃ adj, snapTargets t gs tol = .ok adj ∧ d.map Prod.fst = adj.dedup ∧
      ∀ n co, (n, co) ∈ d → tf n = some co := by
  unfold adjust_nodes at h
  cases hg : groupsPass tol gs t [] with
  | error e => rw [hg] at h; cases h
  | ok p =>
    obtain ⟨tf', adj⟩ := p
    rw [hg] at h
    dsimp only at h
    cases hb : buildAdjDict tf' adj.dedup with
    | error e => rw [hb] at h; cases h
    | ok d' =>
      rw [hb] at h
      dsimp only at h
      rw [Except.ok.injEq, Prod.mk.injEq] at h
      obtain ⟨htf, hdd⟩ := h
      subst htf
      subst hdd
      exact ⟨adj, by simp [snapTargets, hg], (buildAdjDict_spec _ _ _ hb).1,
        (buildAdjDict_spec _ _ _ hb).2⟩

/-- Witness for `c5_amended` on `tC5` with group `[1,2]`. -/
theorem c5_amended_witness :
    ∃ adj, snapTargets tC5 [[1, 2]] (mkRat 1 1000) = .ok adj ∧
      ([(2, ([0, 0, 0] : List ℚ))].map Prod.fst = adj.dedup) ∧
      ∀ n co, (n, co) ∈ [(2, ([0, 0, 0] : List ℚ))] → updateT tC5 2 [0, 0, 0] n = some co :=
  c5_amended tC5 [[1, 2]] (mkRat 1 1000) (updateT tC5 2 [0, 0, 0]) [(2, [0, 0, 0])] rfl

theorem scanNodes_nil (cur : Table) (mode : Bool) :
    scanNodes mode cur [] = if mode then .error .malformedSection else .ok cur := rfl

theorem scanNodes_false_cons (cur : Table) (l : Line) (ls : List Line) :
    scanNodes false cur (l :: ls) =
      if startsWithL l nodeHeader then scanNodes true emptyT ls
      else scanNodes false cur ls := rfl

theorem scanNodes_true_cons (cur : Table) (l : Line) (ls : List Line) :
    scanNodes true cur (l :: ls) =
      if startsWithL l starMark then
        (if startsWithL l nodeHeader then scanNodes true emptyT ls
         else scanNodes false cur ls)
      else
        match parseNodeLine l with
        | some (n, c) => scanNodes true (updateT cur n c) ls
        | none => .error .badParse := rfl

theorem writeLines_nil (d : List (ℤ × List ℚ)) (mode : Bool) :
    writeLines d mode [] = if mode then .error .malformedSection else .ok [] := rfl

theorem writeLines_false_cons (d : List (ℤ × List ℚ)) (l : Line) (ls : List Line) :
    writeLines d false (l :: ls) =
      match writeLines d (startsWithL l nodeHeader) ls with
      | .ok out => .ok (l :: out)
      | .error e => .error e := rfl

theorem writeLines_true_cons (d : List (ℤ × List ℚ)) (l : Line) (ls : List Line) :
    writeLines d true (l :: ls) =
      if startsWithL l starMark then
        match writeLines d (startsWithL l nodeHeader) ls with
        | .ok out => .ok (l :: out)
        | .error e => .error e
      else
        match pyInt? (idField l) with
        | none => .error .badParse
        | some n =>
          match dictLookup d n with
          | none =>
            match writeLines d true ls with
            | .ok out => .ok (l :: out)
            | .error e => .error e
          | some c =>
            match formatCoord3 n c with
            | .error e => .error e
            | .ok s =>
              match writeLines d true ls with
              | .ok out => .ok (s :: out)
              | .error e => .error e := rfl

theorem scanElems_nil (key : Line) (acc : List (List ℤ)) (mode : Bool) :
    scanElems key mode acc [] = if mode then .error .malformedSection else .ok acc := rfl

theorem scanElems_false_cons (key : Line) (acc : List (List ℤ)) (l : Line) (ls : List Line) :
    scanElems key false acc (l :: ls) =
      if startsWithL l key then scanElems key true acc ls
      else scanElems key false acc ls := rfl

theorem scanElems_true_cons (key : Line) (acc : List (List ℤ)) (l : Line) (ls : List Line) :
    scanElems key true acc (l :: ls) =
      if startsWithL l starMark then
        (if startsWithL l key then scanElems key true acc ls
         else scanElems key false acc ls)
      else
        match parseElemLine l with
        | some g => scanElems key true (acc ++ [g]) ls
        | none => .error .badParse := rfl

theorem nodeFlags_nil (mode : Bool) : nodeFlags mode [] = [] := rfl

theorem nodeFlags_false_cons (l : Line) (ls : List Line) :
    nodeFlags false (l :: ls) = false :: nodeFlags (startsWithL l nodeHeader) ls := rfl

theorem nodeFlags_true_cons (l : Line) (ls : List Line) :
    nodeFlags true (l :: ls) =
      if startsWithL l starMark then false :: nodeFlags (startsWithL l nodeHeader) ls
      else true :: nodeFlags true ls := rfl

theorem parseNodeLine_id (l : Line) (n : ℤ) (cs : List ℚ)
    (h : parseNodeLine l = some (n, cs)) : pyInt? (idField l) = some n := by
  unfold parseNodeLine at h
  cases hp : pyInt? (idField l) with
  | none => rw [hp] at h; cases h
  | some m =>
    rw [hp] at h
    cases hm : ((splitComma l).tail).mapM pyFloat? with
    | none => rw [hm] at h; cases h
    | some cs' =>
      rw [hm] at h
      cases h
      rfl

theorem scan_write_id : ∀ (ls : List Line) (mode : Bool) (cur t : Table),
    scanNodes mode cur ls = .ok t → writeLines [] mode ls = .ok ls := by
  intro ls
  induction ls with
  | nil =>
    intro mode cur t h
    cases mode with
    | false => rfl
    | true => cases h
  | cons l ls ih =>
    intro ls' cur t h
    cases ls' with
    | false =>
      rw [scanNodes_false_cons] at h
      rw [writeLines_false_cons]
      by_cases hh : startsWithL l nodeHeader = true
      · rw [if_pos hh] at h
        rw [hh, ih true emptyT t h]
      · rw [if_neg hh] at h
        rw [Bool.not_eq_true] at hh
        rw [hh, ih false cur t h]
    | true =>
      rw [scanNodes_true_cons] at h
      rw [writeLines_true_cons]
      by_cases hs : startsWithL l starMark = true
      · rw [if_pos hs] at h
        rw [if_pos hs]
        by_cases hh : startsWithL l nodeHeader = true
        · rw [if_pos hh] at h
          rw [hh, ih true emptyT t h]
        · rw [if_neg hh] at h
          rw [Bool.not_eq_true] at hh
          rw [hh, ih false cur t h]
      · rw [if_neg hs] at h
        rw [if_neg hs]
        cases hp : parseNodeLine l with
        | none => rw [hp] at h; cases h
        | some p =>
          rw [hp] at h
          obtain ⟨n, cs⟩ := p
          dsimp only at h
          rw [parseNodeLine_id l n cs hp]
          dsimp only
          have hd : dictLookup [] n = none := rfl
          rw [hd]
          dsimp only
          rw [ih true (updateT cur n cs) t h]

theorem scanNodes_indep : ∀ (ls : List Line) (mode : Bool) (c1 c2 : Table),
    (∃ l ∈ ls, startsWithL l nodeHeader = true) →
    scanNodes mode c1 ls = scanNodes mode c2 ls := by
  intro ls
  induction ls with
  | nil =>
    intro mode c1 c2 h
    exact absurd h (by simp)
  | cons l ls ih =>
    intro mode c1 c2 h
    by_cases hh : startsWithL l nodeHeader = true
    · have hs : startsWithL l starMark = true := startsWith_of_nodeHeader l hh
      cases mode with
      | false => simp only [scanNodes_false_cons, hh, if_true]
      | true => simp only [scanNodes_true_cons, hs, hh, if_true]
    · have h' : ∃ x ∈ ls, startsWithL x nodeHeader = true := by
        rcases h with ⟨x, hx, hxh⟩
        rcases List.mem_cons.mp hx with rfl | hx'
        · exact absurd hxh hh
        · exact ⟨x, hx', hxh⟩
      rw [Bool.not_eq_true] at hh
      cases mode with
      | false =>
        simp only [scanNodes_false_cons, hh]
        exact ih false c1 c2 h'
      | true =>
        by_cases hs : startsWithL l starMark = true
        · simp only [scanNodes_true_cons, hs, hh]
          exact ih false c1 c2 h'
        · rw [Bool.not_eq_true] at hs
          simp only [scanNodes_true_cons, hs]
          cases hp : parseNodeLine l with
          | none => rfl
          | some p =>
            obtain ⟨n, cs⟩ := p
            dsimp only
            exact ih true _ _ h'

theorem scanNodes_skip : ∀ (pre : List Line) (cur : Table) (r : List Line),
    (∀ l ∈ pre, startsWithL l nodeHeader = false) →
    scanNodes false cur (pre ++ r) = scanNodes false cur r := by
  intro pre
  induction pre with
  | nil => intro cur r _; rfl
  | cons l pre ih =>
    intro cur r h
    have hl : startsWithL l nodeHeader = false := h l (List.mem_cons_self l pre)
    rw [List.cons_append, scanNodes_false_cons, hl]
    exact ih cur r (fun x hx => h x (List.mem_cons_of_mem l hx))

theorem scanNodes_trunc : ∀ (body : List Line) (cur : Table),
    (∀ l ∈ body, startsWithL l starMark = false ∧ (parseNodeLine l).isSome = true) →
    scanNodes true cur body = .error .malformedSection := by
  intro body
  induction body with
  | nil => intro cur _; rfl
  | cons l body ih =>
    intro cur h
    obtain ⟨hs, hp⟩ := h l (List.mem_cons_self l body)
    rw [scanNodes_true_cons, hs]
    cases hpp : parseNodeLine l with
    | none => rw [hpp] at hp; cases hp
    | some p =>
      obtain ⟨n, cs⟩ := p
      dsimp only
      exact ih _ (fun x hx => h x (List.mem_cons_of_mem l hx))

theorem nodeFlags_length : ∀ (ls : List Line) (mode : Bool),
    (nodeFlags mode ls).length = ls.length := by
  intro ls
  induction ls with
  | nil => intro mode; rfl
  | cons l ls ih =>
    intro mode
    cases mode with
    | false => rw [nodeFlags_false_cons]; simp [ih]
    | true =>
      rw [nodeFlags_true_cons]
      by_cases hs : startsWithL l starMark = true
      · rw [if_pos hs]; simp [ih]
      · rw [if_neg hs]; simp [ih]

theorem forall2_getD {α β : Type} {R : α → β → Prop} :
    ∀ {xs : List α} {ys : List β}, List.Forall₂ R xs ys →
      ∀ (i : ℕ) (a : α) (b : β), i < xs.length → R (xs.getD i a) (ys.getD i b) := by
  intro xs ys h
  induction h with
  | nil => intro i a b hi; cases hi
  | cons hR htail ih =>
    intro i a b hi
    cases i with
    | zero => simpa using hR
    | succ j =>
      simp only [List.getD_cons_succ]
      exact ih j a b (by simpa using hi)

theorem zip_getD {α β : Type} :
    ∀ (xs : List α) (ys : List β) (i : ℕ) (a : α) (b : β),
      i < xs.length → i < ys.length →
      (xs.zip ys).getD i (a, b) = (xs.getD i a, ys.getD i b) := by
  intro xs
  induction xs with
  | nil => intro ys i a b hi _; cases hi
  | cons x xs ih =>
    intro ys i a b hi hj
    cases ys with
    | nil => cases hj
    | cons y ys =>
      cases i with
      | zero => rfl
      | succ j =>
        simp only [List.zip_cons_cons, List.getD_cons_succ]
        exact ih ys j a b (by simpa using hi) (by simpa using hj)

theorem writeLines_rel : ∀ (ls : List Line) (d : List (ℤ × List ℚ)) (mode : Bool)
    (out : List Line), writeLines d mode ls = .ok out →
    List.Forall₂ (fun lb o => lineRel d lb.1 lb.2 o) (ls.zip (nodeFlags mode ls)) out := by
  intro ls
  induction ls with
  | nil =>
    intro d mode out h
    cases mode with
    | false => cases h; exact List.Forall₂.nil
    | true => cases h
  | cons l ls ih =>
    intro d mode out h
    cases mode with
    | false =>
      rw [writeLines_false_cons] at h
      cases hw : writeLines d (startsWithL l nodeHeader) ls with
      | error e => rw [hw] at h; cases h
      | ok out' =>
        rw [hw] at h
        dsimp only at h
        cases h
        rw [nodeFlags_false_cons, List.zip_cons_cons]
        exact List.Forall₂.cons (by simp [lineRel]) (ih d _ out' hw)
    | true =>
      rw [writeLines_true_cons] at h
      by_cases hs : startsWithL l starMark = true
      · rw [if_pos hs] at h
        cases hw : writeLines d (startsWithL l nodeHeader) ls with
        | error e => rw [hw] at h; cases h
        | ok out' =>
          rw [hw] at h
          dsimp only at h
          cases h
          rw [nodeFlags_true_cons, if_pos hs, List.zip_cons_cons]
          exact List.Forall₂.cons (by simp [lineRel]) (ih d _ out' hw)
      · rw [if_neg hs] at h
        cases hn : pyInt? (idField l) with
        | none => rw [hn] at h; cases h
        | some n =>
          rw [hn] at h
          dsimp only at h
          cases hd : dictLookup d n with
          | none =>
            rw [hd] at h
            dsimp only at h
            cases hw : writeLines d true ls with
            | error e => rw [hw] at h; cases h
            | ok out' =>
              rw [hw] at h
              dsimp only at h
              cases h
              rw [nodeFlags_true_cons, if_neg hs, List.zip_cons_cons]
              refine List.Forall₂.cons ?_ (ih d true out' hw)
              exact ⟨n, hn, Or.inl ⟨hd, rfl⟩⟩
          | some c =>
            rw [hd] at h
            dsimp only at h
            cases hf : formatCoord3 n c with
            | error e => rw [hf] at h; cases h
            | ok s =>
              rw [hf] at h
              dsimp only at h
              cases hw : writeLines d true ls with
              | error e => rw [hw] at h; cases h
              | ok out' =>
                rw [hw] at h
                dsimp only at h
                cases h
                rw [nodeFlags_true_cons, if_neg hs, List.zip_cons_cons]
                refine List.Forall₂.cons ?_ (ih d true out' hw)
                exact ⟨n, hn, Or.inr ⟨c, hd, hf⟩⟩

theorem innerPairs_mem (tol : ℚ) (n1 : ℤ) (c1 : List ℚ) :
    ∀ (rest : List ℤ) (t : Table) (adj : List ℤ) (t' : Table) (adj' : List ℤ),
      innerPairs tol n1 c1 rest t adj = .ok (t', adj') →
      ∀ m ∈ adj', m ∈ adj ∨ m ∈ rest := by
  intro rest
  induction rest with
  | nil =>
    intro t adj t' adj' h m hm
    cases h
    exact Or.inl hm
  | cons n2 rs ih =>
    intro t adj t' adj' h m hm
    simp only [innerPairs] at h
    cases hl : lookupE t n2 with
    | error e => rw [hl] at h; cases h
    | ok c2 =>
      rw [hl] at h
      dsimp only at h
      cases h3 : firstThree c1 with
      | error e => rw [h3] at h; cases h
      | ok p1 =>
        rw [h3] at h
        obtain ⟨x1, y1, z1⟩ := p1
        dsimp only at h
        cases h4 : firstThree c2 with
        | error e => rw [h4] at h; cases h
        | ok p2 =>
          rw [h4] at h
          obtain ⟨x2, y2, z2⟩ := p2
          dsimp only at h
          by_cases hg : (near tol x1 x2 && near tol y1 y2 && near tol z1 z2) = true
          · rw [if_pos hg] at h
            cases hl1 : lookupE t n1 with
            | error e => rw [hl1] at h; cases h
            | ok c1cur =>
              rw [hl1] at h
              dsimp only at h
              rcases ih _ _ _ _ h m hm with hIn | hIn
              · rcases List.mem_append.mp hIn with hIn' | hIn'
                · exact Or.inl hIn'
                · have hmn : m = n2 := by simpa using hIn'
                  exact Or.inr (hmn ▸ List.mem_cons_self n2 rs)
              · exact Or.inr (List.mem_cons_of_mem n2 hIn)
          · rw [if_neg hg] at h
            rcases ih _ _ _ _ h m hm with hIn | hIn
            · exact Or.inl hIn
            · exact Or.inr (List.mem_cons_of_mem n2 hIn)

theorem groupPass_mem (tol : ℚ) :
    ∀ (g : List ℤ) (t : Table) (adj : List ℤ) (t' : Table) (adj' : List ℤ),
      groupPass tol g t adj = .ok (t', adj') → ∀ m ∈ adj', m ∈ adj ∨ m ∈ g := by
  intro g
  induction g with
  | nil =>
    intro t adj t' adj' h m hm
    cases h
    exact Or.inl hm
  | cons n1 rest ih =>
    intro t adj t' adj' h m hm
    simp only [groupPass] at h
    cases hl : lookupE t n1 with
    | error e => rw [hl] at h; cases h
    | ok c1 =>
      rw [hl] at h
      dsimp only at h
      cases hi : innerPairs tol n1 c1 rest t adj with
      | error e => rw [hi] at h; cases h
      | ok p =>
        rw [hi] at h
        obtain ⟨t1, adj1⟩ := p
        dsimp only at h
        rcases ih _ _ _ _ h m hm with hIn | hIn
        · rcases innerPairs_mem tol n1 c1 _ _ _ _ _ hi m hIn with hIn' | hIn'
          · exact Or.inl hIn'
          · exact Or.inr (List.mem_cons_of_mem n1 hIn')
        · exact Or.inr (List.mem_cons_of_mem n1 hIn)

theorem groupsPass_mem (tol : ℚ) :
    ∀ (gs : List (List ℤ)) (t : Table) (adj : List ℤ) (t' : Table) (adj' : List ℤ),
      groupsPass tol gs t adj = .ok (t', adj') →
      ∀ m ∈ adj', m ∈ adj ∨ ∃ g ∈ gs, m ∈ g := by
  intro gs
  induction gs with
  | nil =>
    intro t adj t' adj' h m hm
    cases h
    exact Or.inl hm
  | cons g gs ih =>
    intro t adj t' adj' h m hm
    simp only [groupsPass] at h
    cases hg : groupPass tol g t adj with
    | error e => rw [hg] at h; cases h
    | ok p =>
      rw [hg] at h
      obtain ⟨t1, adj1⟩ := p
      dsimp only at h
      rcases ih _ _ _ _ h m hm with hIn | hIn
      · rcases groupPass_mem tol g _ _ _ _ hg m hIn with hIn' | hIn'
        · exact Or.inl hIn'
        · exact Or.inr ⟨g, List.mem_cons_self g gs, hIn'⟩
      · rcases hIn with ⟨g', hg', hmg⟩
        exact Or.inr ⟨g', List.mem_cons_of_mem g hg', hmg⟩

theorem dictLookup_mem (d : List (ℤ × List ℚ)) (n : ℤ) (c : List ℚ)
    (h : dictLookup d n = some c) : n ∈ d.map Prod.fst := by
  unfold dictLookup at h
  cases hf : d.find? (fun p => p.1 = n) with
  | none => rw [hf] at h; cases h
  | some p =>
    have hp : p ∈ d := List.mem_of_find?_eq_some hf
    have hpn : (p.1 = n) := by
      have := List.find?_some hf
      simpa using this
    exact hpn ▸ List.mem_map_of_mem Prod.fst hp

theorem coord_snap_parts (file : List Line) (ets : Line) (tol : ℚ) (u : Unit)
    (out : List Line) (h : coord_snap file ets tol = .ok (u, out)) :
    ∃ key gs t tf d, elemKey? ets = some key ∧ scanElems key false [] file = .ok gs ∧
      scanNodes false emptyT file = .ok t ∧ adjust_nodes t gs tol = .ok (tf, d) ∧
      snapDict file ets tol = .ok d ∧ writeLines d false file = .ok out := by
  unfold coord_snap at h
  cases hk : elemKey? ets with
  | none => rw [hk] at h; cases h
  | some key =>
    rw [hk] at h
    dsimp only at h
    cases hgs : scanElems key false [] file with
    | error e => rw [hgs] at h; cases h
    | ok gs =>
      rw [hgs] at h
      dsimp only at h
      cases ht : scanNodes false emptyT file with
      | error e => rw [ht] at h; cases h
      | ok t =>
        rw [ht] at h
        dsimp only at h
        cases ha : adjust_nodes t gs tol with
        | error e => rw [ha] at h; cases h
        | ok p =>
          rw [ha] at h
          obtain ⟨tf, d⟩ := p
          dsimp only at h
          cases hw : writeLines d false file with
          | error e => rw [hw] at h; cases h
          | ok out' =>
            rw [hw] at h
            dsimp only at h
            cases h
            exact ⟨key, gs, t, tf, d, rfl, hgs, rfl, ha, by
              simp [snapDict, hk, hgs, ht, ha], hw⟩

/-- Claim C4 (amended): the repair is not idempotent in general (see the
counterexample); but whenever a run's changed-node set is empty, its
output file equals its input file, and hence a second run on that output
behaves identically: its changed-node set is empty and its output equals
its input. -/
theorem c4_amended (file : List Line) (ets : Line) (tol : ℚ)
    (h : snapDict file ets tol = .ok []) :
    ∃ out, coord_snap file ets tol = .ok ((), out) ∧ out = file ∧
      snapDict out ets tol = .ok [] ∧ coord_snap out ets tol = .ok ((), out) := by
  unfold snapDict at h
  cases hk : elemKey? ets with
  | none => rw [hk] at h; cases h
  | some key =>
    rw [hk] at h
    dsimp only at h
    cases hgs : scanElems key false [] file with
    | error e => rw [hgs] at h; cases h
    | ok gs =>
      rw [hgs] at h
      dsimp only at h
      cases ht : scanNodes false emptyT file with
      | error e => rw [ht] at h; cases h
      | ok t =>
        rw [ht] at h
        dsimp only at h
        cases ha : adjust_nodes t gs tol with
        | error e => rw [ha] at h; cases h
        | ok p =>
          rw [ha] at h
          obtain ⟨tf, d⟩ := p
          dsimp only at h
          cases h
          have hw : writeLines [] false file = .ok file := scan_write_id file false emptyT t ht
          have hcs : coord_snap file ets tol = .ok ((), file) := by
            simp [coord_snap, hk, hgs, ht, ha, hw]
          exact ⟨file, hcs, rfl, by simp [snapDict, hk, hgs, ht, ha], hcs⟩

/-- Witness for `c4_amended` on `fileC10`, whose run changes no nodes. -/
theorem c4_amended_witness :
    ∃ out, coord_snap fileC10 ("cohesives".toList) (mkRat 1 1000) = .ok ((), out) ∧
      out = fileC10 ∧
      snapDict out ("cohesives".toList) (mkRat 1 1000) = .ok [] ∧
      coord_snap out ("cohesives".toList) (mkRat 1 1000) = .ok ((), out) :=
  c4_amended fileC10 ("cohesives".toList) (mkRat 1 1000) (by decide)

/-- Counterexample to claim C4 as stated: running the repair on `fileC4`
(policy `cohesives`, tolerance 1) and running it again on its own output
changes node 2 a second time — the second run's output differs from its
input and its changed-node set is not empty. The repair is not idempotent. -/
theorem c4_counterexample :
    coord_snap fileC4 ("cohesives".toList) 1 = .ok ((), outC4a) ∧
    coord_snap outC4a ("cohesives".toList) 1 = .ok ((), outC4b) ∧
    outC4b ≠ outC4a ∧
    snapDict outC4a ("cohesives".toList) 1 ≠ .ok [] := by decide

/-- Claim C6: frame property of the rewriter. On a successful run the
output has one line per input line; every line processed outside
node-section rewriting mode (all lines outside node sections, headers and
terminators included) is copied byte-identically; every node line whose
leading node id is not in the changed-node dictionary is copied
byte-for-byte (trailing fields included); and every node not referenced in
any element group is absent from that dictionary, so its line is copied. -/
theorem c6_frame (file : List Line) (ets : Line) (tol : ℚ) (out : List Line)
    (d : List (ℤ × List ℚ))
    (h1 : coord_snap file ets tol = .ok ((), out))
    (h2 : snapDict file ets tol = .ok d) :
    out.length = file.length ∧
    (∀ i, (nodeFlags false file).getD i true = false → out.getD i [] = file.getD i []) ∧
    (∀ i n, (nodeFlags false file).getD i false = true →
       pyInt? (idField (file.getD i [])) = some n → dictLookup d n = none →
       out.getD i [] = file.getD i []) ∧
    (∀ n gs, groupsOf file ets = .ok gs → (∀ g ∈ gs, n ∉ g) → dictLookup d n = none) := by
  obtain ⟨key, gs, t, tf, d', hk, hgs, ht, ha, hsd, hw⟩ :=
    coord_snap_parts file ets tol () out h1
  have hdd : d' = d := by
    rw [hsd] at h2
    exact Except.ok.inj h2
  rw [hdd] at ha hsd hw
  have hrel := writeLines_rel file d false out hw
  have hzlen : (file.zip (nodeFlags false file)).length = file.length := by
    rw [List.length_zip, nodeFlags_length, min_self]
  have hlen : out.length = file.length := by
    have hl := List.Forall₂.length_eq hrel
    rw [hzlen] at hl
    exact hl.symm
  have hR : ∀ i, i < file.length →
      lineRel d (file.getD i []) ((nodeFlags false file).getD i false) (out.getD i []) := by
    intro i hi
    have hg := forall2_getD hrel i ([], false) [] (by rw [hzlen]; exact hi)
    rwa [zip_getD file (nodeFlags false file) i [] false hi
      (by rw [nodeFlags_length]; exact hi)] at hg
  refine ⟨hlen, ?_, ?_, ?_⟩
  · intro i hflag
    by_cases hi : i < file.length
    · have hfd : (nodeFlags false file).getD i false = false := by
        rw [List.getD_eq_getElem _ _ (by rw [nodeFlags_length]; exact hi)] at hflag ⊢
        exact hflag
      have := hR i hi
      rw [hfd] at this
      exact this
    · push_neg at hi
      have : (nodeFlags false file).getD i true = true :=
        List.getD_eq_default _ _ (by rw [nodeFlags_length]; exact hi)
      rw [this] at hflag
      cases hflag
  · intro i n hflag hid hnone
    have hi : i < file.length := by
      by_contra hge
      push_neg at hge
      have : (nodeFlags false file).getD i false = false :=
        List.getD_eq_default _ _ (by rw [nodeFlags_length]; exact hge)
      rw [this] at hflag
      cases hflag
    have hr := hR i hi
    rw [hflag] at hr
    obtain ⟨m, hm, hcase⟩ := hr
    rw [hid] at hm
    cases hm
    rcases hcase with ⟨_, heq⟩ | ⟨c, hc, _⟩
    · exact heq
    · rw [hnone] at hc
      cases hc
  · intro n gs' hgs' hnot
    have hgseq : gs' = gs := by
      unfold groupsOf at hgs'
      rw [hk] at hgs'
      dsimp only at hgs'
      rw [hgs] at hgs'
      exact (Except.ok.inj hgs').symm
    rw [hgseq] at hnot
    cases hc : dictLookup d n with
    | none => rfl
    | some c =>
      exfalso
      have hmem : n ∈ d.map Prod.fst := dictLookup_mem d n c hc
      unfold adjust_nodes at ha
      cases hgp : groupsPass tol gs t [] with
      | error e => rw [hgp] at ha; cases ha
      | ok p =>
        obtain ⟨tf1, adj⟩ := p
        rw [hgp] at ha
        dsimp only at ha
        cases hb2 : buildAdjDict tf1 adj.dedup with
        | error e => rw [hb2] at ha; cases ha
        | ok dd =>
          rw [hb2] at ha
          dsimp only at ha
          rw [Except.ok.injEq, Prod.mk.injEq] at ha
          obtain ⟨htf1, hdd1⟩ := ha
          subst htf1
          subst hdd1
          rw [(buildAdjDict_spec _ _ _ hb2).1] at hmem
          have hadj : n ∈ adj := List.mem_dedup.mp hmem
          rcases groupsPass_mem tol gs t [] _ _ hgp n hadj with hin | ⟨g, hgmem, hng⟩
          · cases hin
          · exact hnot g hgmem hng

/-- Witness for `c6_frame` on the pipeline run over `fileW`. -/
theorem c6_frame_witness :
    outW.length = fileW.length ∧
    (∀ i, (nodeFlags false fileW).getD i true = false → outW.getD i [] = fileW.getD i []) ∧
    (∀ i n, (nodeFlags false fileW).getD i false = true →
       pyInt? (idField (fileW.getD i [])) = some n →
       dictLookup [(2, ([0, 0, 0] : List ℚ))] n = none →
       outW.getD i [] = fileW.getD i []) ∧
    (∀ n gs, groupsOf fileW ("cohesives".toList) = .ok gs → (∀ g ∈ gs, n ∉ g) →
       dictLookup [(2, ([0, 0, 0] : List ℚ))] n = none) :=
  c6_frame fileW ("cohesives".toList) (mkRat 1 1000) outW [(2, [0, 0, 0])]
    (by decide) (by decide)

/-- Claim C7: for every node in the changed-node set, the rewriter emits a
freshly formatted line consisting of exactly the node id and its first 3
coordinate values, regardless of how many trailing fields the stored
coordinate tuple carries — the formatting function discards everything
after the third coordinate. -/
theorem c7_format (file : List Line) (ets : Line) (tol : ℚ) (out : List Line)
    (d : List (ℤ × List ℚ))
    (h1 : coord_snap file ets tol = .ok ((), out))
    (h2 : snapDict file ets tol = .ok d) :
    (∀ i n c, (nodeFlags false file).getD i false = true →
       pyInt? (idField (file.getD i [])) = some n → dictLookup d n = some c →
       ∃ c0 c1 c2 rest, c = c0 :: c1 :: c2 :: rest ∧
         out.getD i [] =
           intToChars n ++ ',' :: rq c0 ++ ',' :: rq c1 ++ ',' :: rq c2 ++ ['\n']) ∧
    (∀ (n : ℤ) (c0 c1 c2 : ℚ) (rest : List ℚ),
       formatCoord3 n (c0 :: c1 :: c2 :: rest) = formatCoord3 n [c0, c1, c2]) := by
  obtain ⟨key, gs, t, tf, d', hk, hgs, ht, ha, hsd, hw⟩ :=
    coord_snap_parts file ets tol () out h1
  have hdd : d' = d := by
    rw [hsd] at h2
    exact Except.ok.inj h2
  rw [hdd] at hw
  have hrel := writeLines_rel file d false out hw
  have hzlen : (file.zip (nodeFlags false file)).length = file.length := by
    rw [List.length_zip, nodeFlags_length, min_self]
  refine ⟨?_, fun n c0 c1 c2 rest => rfl⟩
  intro i n c hflag hid hsome
  have hi : i < file.length := by
    by_contra hge
    push_neg at hge
    have : (nodeFlags false file).getD i false = false :=
      List.getD_eq_default _ _ (by rw [nodeFlags_length]; exact hge)
    rw [this] at hflag
    cases hflag
  have hg := forall2_getD hrel i ([], false) [] (by rw [hzlen]; exact hi)
  rw [zip_getD file (nodeFlags false file) i [] false hi
    (by rw [nodeFlags_length]; exact hi)] at hg
  rw [hflag] at hg
  obtain ⟨m, hm, hcase⟩ := hg
  rw [hid] at hm
  cases hm
  rcases hcase with ⟨hnone, _⟩ | ⟨c', hc', hf⟩
  · rw [hsome] at hnone
    cases hnone
  · rw [hsome] at hc'
    have hcc : c = c' := Option.some.inj hc'
    subst hcc
    cases c with
    | nil => cases hf
    | cons c0 ctl =>
      cases ctl with
      | nil => cases hf
      | cons c1 ctl2 =>
        cases ctl2 with
        | nil => cases hf
        | cons c2 rest =>
          refine ⟨c0, c1, c2, rest, rfl, ?_⟩
          have := Except.ok.inj hf
          exact this.symm

/-- Witness for `c7_format`: node 2's line in the output for `fileW` is the
freshly formatted three-coordinate line. -/
theorem c7_format_witness :
    ∃ c0 c1 c2 rest, ([0, 0, 0] : List ℚ) = c0 :: c1 :: c2 :: rest ∧
      outW.getD 2 [] =
        intToChars 2 ++ ',' :: rq c0 ++ ',' :: rq c1 ++ ',' :: rq c2 ++ ['\n'] :=
  (c7_format fileW ("cohesives".toList) (mkRat 1 1000) outW [(2, [0, 0, 0])]
    (by decide) (by decide)).1 2 2 [0, 0, 0] (by decide) (by decide) (by decide)

/-- Counterexample to claim C8 as stated: `fileC8` has two node sections;
the first defines only node 1 and the second only node 2. The claim says
the table is built from the *first* node section, which would contain
node 1 and not node 2 — but the parsed table contains node 2 and not
node 1: each node section's table replaces the previous one, so the *last*
section wins. -/
theorem c8_counterexample :
    scanTableAt fileC8 1 = none ∧ scanTableAt fileC8 2 = some [2, 2, 2] := by decide

/-- Claim C8 (amended): when more than one node section is present, the
node table used by the clusterer is the one built from the *last* node
section encountered in the second pass: whenever a node-section header
still lies ahead, the table accumulated so far has no effect on the
result of the pass (each completed section replaces the previous table). -/
theorem c8_amended (ls : List Line) (h : ∃ l ∈ ls, startsWithL l nodeHeader = true)
    (c1 c2 : Table) : scanNodes false c1 ls = scanNodes false c2 ls :=
  scanNodes_indep ls false c1 c2 h

/-- Witness for `c8_amended`: two different starting tables give the same
scan result on `fileC10`. -/
theorem c8_amended_witness :
    scanNodes false (fun n => if n = (7 : ℤ) then some [1] else none) fileC10 =
      scanNodes false emptyT fileC10 :=
  c8_amended fileC10 (by decide) (fun n => if n = (7 : ℤ) then some [1] else none) emptyT

/-- Claim C9: if the node section is truncated — end of input is reached
before any terminator line starting with `*` — the operation fails with
the malformed-section error, and no destination file is produced: the
failure arises while parsing, before the destination is opened (the
result carries no output). The element pass is assumed to succeed (its own
truncation produces the same error earlier) and the node records of the
truncated section to be well formed (a malformed record raises the parse
error instead). -/
theorem c9_truncated (pre body : List Line) (ets key : Line) (gs : List (List ℤ)) (tol : ℚ)
    (hk : elemKey? ets = some key)
    (hgs : scanElems key false [] (pre ++ nodeHeader :: body) = .ok gs)
    (hpre : ∀ l ∈ pre, startsWithL l nodeHeader = false)
    (hbody : ∀ l ∈ body, startsWithL l starMark = false ∧ (parseNodeLine l).isSome = true) :
    coord_snap (pre ++ nodeHeader :: body) ets tol = .error .malformedSection := by
  have hscan : scanNodes false emptyT (pre ++ nodeHeader :: body) =
      .error .malformedSection := by
    rw [scanNodes_skip pre emptyT (nodeHeader :: body) hpre, scanNodes_false_cons]
    have hself : startsWithL nodeHeader nodeHeader = true := by decide
    rw [hself]
    exact scanNodes_trunc body emptyT hbody
  unfold coord_snap
  rw [hk]
  dsimp only
  rw [hgs]
  dsimp only
  rw [hscan]

/-- Witness for `c9_truncated` on a three-line file whose node section
never terminates. -/
theorem c9_truncated_witness :
    coord_snap (["x\n".toList] ++ nodeHeader :: ["1,0,0,0\n".toList])
      ("cohesives".toList) 1 = .error .malformedSection :=
  c9_truncated ["x\n".toList] ["1,0,0,0\n".toList] ("cohesives".toList)
    ("*Element, type=COH3D".toList) [] 1 (by decide) (by decide) (by decide) (by decide)

/-- Counterexample to claim C10 as stated: two successful runs with
changed-node counts 0 and 1 return the same value — the Python function
ends in a bare `return`, so it returns `None` on every success and does
not return the changed-node count. -/
theorem c10_counterexample :
    changedCountOf fileC10 ("cohesives".toList) (mkRat 1 1000) = some 0 ∧
    changedCountOf fileW ("cohesives".toList) (mkRat 1 1000) = some 1 ∧
    retOf fileC10 ("cohesives".toList) (mkRat 1 1000) =
      retOf fileW ("cohesives".toList) (mkRat 1 1000) := by decide

/-- Claim C10 (amended): on success `coord_snap` runs the full pipeline —
keyword selection, element pass, node pass, clustering, rewrite — and
writes the destination, but returns no value (`None`, modelled by `Unit`);
the changed-node count is computed internally as the size of the adjusted
dictionary and is only logged, never returned. Otherwise it fails. -/
theorem c10_amended (file : List Line) (ets : Line) (tol : ℚ) (u : Unit) (out : List Line)
    (h : coord_snap file ets tol = .ok (u, out)) :
    u = () ∧
    ∃ key gs t tf d, elemKey? ets = some key ∧ scanElems key false [] file = .ok gs ∧
      scanNodes false emptyT file = .ok t ∧ adjust_nodes t gs tol = .ok (tf, d) ∧
      snapDict file ets tol = .ok d ∧ changedCountOf file ets tol = some d.length ∧
      writeLines d false file = .ok out := by
  obtain ⟨key, gs, t, tf, d, hk, hgs, ht, ha, hsd, hw⟩ :=
    coord_snap_parts file ets tol u out h
  exact ⟨rfl, key, gs, t, tf, d, hk, hgs, ht, ha, hsd, by
    simp [changedCountOf, hsd], hw⟩

/-- Witness for `c10_amended` on the pipeline run over `fileW`. -/
theorem c10_amended_witness :
    (() = ()) ∧
    ∃ key gs t tf d, elemKey? ("cohesives".toList) = some key ∧
      scanElems key false [] fileW = .ok gs ∧
      scanNodes false emptyT fileW = .ok t ∧
      adjust_nodes t gs (mkRat 1 1000) = .ok (tf, d) ∧
      snapDict fileW ("cohesives".toList) (mkRat 1 1000) = .ok d ∧
      changedCountOf fileW ("cohesives".toList) (mkRat 1 1000) = some d.length ∧
      writeLines d false fileW = .ok outW :=
  c10_amended fileW ("cohesives".toList) (mkRat 1 1000) () outW (by decide)
